import Mathlib

/-!
# Verification of the MCP client manager core

Shallow embedding of the process-backed JSON-RPC client manager
(`MCPClientManager` in the source): the newline-delimited frame decoder
(`handleStdout`), the positional request correlator (`sendRequest` /
`handleStdout` response dispatch, 30-second timeout timers), the connect
state machine (`connect`), and the persistence layer
(`saveConnections` / `loadConnections`).

JavaScript strings are modelled as `List Char`; JS `Map`s as ordered
association lists with `Map`-like `set`/`get`/`delete`; promise
settlements are recorded in an explicit ghost log.  External I/O outcomes
(spawn result, the resolution of each awaited JSON-RPC request, the
clock) are parameters of the embedded operations.
-/

set_option autoImplicit false

/-- JSON values as produced by `JSON.parse`.  Numbers are modelled as
integers (the protocol's ids and every input in the claims are integral);
object member lists keep source order and may contain duplicate keys,
with lookup taking the last occurrence as `JSON.parse` does. -/
inductive Json where
  | null
  | bool (b : Bool)
  | num (n : Int)
  | str (s : String)
  | arr (elems : List Json)
  | obj (fields : List (String × Json))
  deriving Repr

/-- Member lookup on a parsed object: later duplicate keys override
earlier ones, as in `JSON.parse`. -/
def lookupField (fields : List (String × Json)) (key : String) : Option Json :=
  fields.foldl (fun acc e => if e.1 = key then some e.2 else acc) none

/-- JavaScript truthiness of a JSON value. -/
def jsTruthy : Json → Bool
  | .null => false
  | .bool b => b
  | .num n => n != 0
  | .str s => s != ""
  | .arr _ => true
  | .obj _ => true

/-- JavaScript `String(x)` coercion, used when a non-string value ends up
as an `Error` message.  Exact for primitives; composite values are
approximated (no theorem in this file exercises those branches). -/
def jsToString : Json → String
  | .null => "null"
  | .bool b => if b then "true" else "false"
  | .num n => toString n
  | .str s => s
  | .arr _ => ""
  | .obj _ => "[object Object]"

/-- `message.error.message || 'MCP error'` (source line 268): the
`message` member of the error object when truthy, else `'MCP error'`.
A non-object `error` value has no `message` property, giving
`undefined`, hence the fallback. -/
def mcpErrorMessage (e : Json) : String :=
  match e with
  | .obj fs =>
    match lookupField fs "message" with
    | some m => if jsTruthy m then jsToString m else "MCP error"
    | none => "MCP error"
  | _ => "MCP error"

/-! ## A JSON parser (`JSON.parse` on a single line)

Recursive-descent with a character-count fuel bound.  Restrictions
relative to full `JSON.parse`, none of which a theorem below depends on:
numbers are integers (no fraction/exponent) and `\u` string escapes are
not recognised. -/

/-- JSON insignificant whitespace (space, tab, line feed, carriage
return). -/
def jsonWs (c : Char) : Bool :=
  c = ' ' || c = '\t' || c = '\n' || c = '\r'

/-- Drop leading JSON whitespace. -/
def skipWs : List Char → List Char
  | [] => []
  | c :: cs => if jsonWs c then skipWs cs else c :: cs

/-- Translate a character following a backslash in a JSON string. -/
def unescapeChar (e : Char) : Option Char :=
  if e = '"' then some '"'
  else if e = '\\' then some '\\'
  else if e = '/' then some '/'
  else if e = 'n' then some '\n'
  else if e = 't' then some '\t'
  else if e = 'r' then some '\r'
  else if e = 'b' then some (Char.ofNat 8)
  else if e = 'f' then some (Char.ofNat 12)
  else none

/-- Parse the body of a JSON string after the opening quote, returning
the decoded characters and the remaining input after the closing
quote. -/
def parseStringBody : Nat → List Char → Option (List Char × List Char)
  | 0, _ => none
  | _, [] => none
  | fuel + 1, c :: cs =>
    if c = '"' then some ([], cs)
    else if c = '\\' then
      match cs with
      | [] => none
      | e :: cs' =>
        match unescapeChar e with
        | some ch => (parseStringBody fuel cs').map (fun r => (ch :: r.1, r.2))
        | none => none
    else if c.toNat < 32 then none
    else (parseStringBody fuel cs).map (fun r => (c :: r.1, r.2))

/-- Longest leading run of decimal digits. -/
def takeDigits : List Char → List Char × List Char
  | [] => ([], [])
  | c :: cs =>
    if c.isDigit then
      let r := takeDigits cs
      (c :: r.1, r.2)
    else ([], c :: cs)

/-- Digit characters to the natural number they denote. -/
def digitsToNat (ds : List Char) : Nat :=
  ds.foldl (fun a c => a * 10 + (c.toNat - 48)) 0

/-- Parse a JSON integer (optional minus sign; no leading zeros). -/
def parseIntLit (cs : List Char) : Option (Int × List Char) :=
  let (neg, cs') : Bool × List Char :=
    match cs with
    | '-' :: rest => (true, rest)
    | _ => (false, cs)
  match takeDigits cs' with
  | ([], _) => none
  | (d :: ds, rest) =>
    if d = '0' ∧ ds ≠ [] then none
    else
      let n : Int := Int.ofNat (digitsToNat (d :: ds))
      some (if neg then -n else n, rest)

mutual

/-- Parse one JSON value; the input must already start at the value
(no leading whitespace). -/
def parseVal : Nat → List Char → Option (Json × List Char)
  | 0, _ => none
  | fuel + 1, cs =>
    match cs with
    | [] => none
    | 'n' :: 'u' :: 'l' :: 'l' :: rest => some (.null, rest)
    | 't' :: 'r' :: 'u' :: 'e' :: rest => some (.bool true, rest)
    | 'f' :: 'a' :: 'l' :: 's' :: 'e' :: rest => some (.bool false, rest)
    | '"' :: rest =>
      (parseStringBody (fuel + 1) rest).map (fun r => (.str r.1.asString, r.2))
    | '{' :: rest =>
      (match skipWs rest with
       | '}' :: rest' => some (.obj [], rest')
       | rest' => (parseFields fuel rest').map (fun r => (.obj r.1, r.2)))
    | '[' :: rest =>
      (match skipWs rest with
       | ']' :: rest' => some (.arr [], rest')
       | rest' => (parseElems fuel rest').map (fun r => (.arr r.1, r.2)))
    | _ => (parseIntLit cs).map (fun r => (.num r.1, r.2))

/-- Parse a nonempty `key : value` member list followed by `}`. -/
def parseFields : Nat → List Char → Option (List (String × Json) × List Char)
  | 0, _ => none
  | fuel + 1, cs =>
    match cs with
    | '"' :: rest =>
      match parseStringBody (fuel + 1) rest with
      | none => none
      | some (key, rest1) =>
        match skipWs rest1 with
        | ':' :: rest2 =>
          match parseVal fuel (skipWs rest2) with
          | none => none
          | some (v, rest3) =>
            (match skipWs rest3 with
             | ',' :: rest4 =>
               (parseFields fuel (skipWs rest4)).map
                 (fun r => ((key.asString, v) :: r.1, r.2))
             | '}' :: rest4 => some ([(key.asString, v)], rest4)
             | _ => none)
        | _ => none
    | _ => none

/-- Parse a nonempty array element list followed by `]`. -/
def parseElems : Nat → List Char → Option (List Json × List Char)
  | 0, _ => none
  | fuel + 1, cs =>
    match parseVal fuel cs with
    | none => none
    | some (v, rest) =>
      match skipWs rest with
      | ',' :: rest' => (parseElems fuel (skipWs rest')).map (fun r => (v :: r.1, r.2))
      | ']' :: rest' => some ([v], rest')
      | _ => none

end

/-- `JSON.parse` on one line: a single JSON document, optionally
surrounded by whitespace; anything else fails. -/
def Json.parse (cs : List Char) : Option Json :=
  let cs' := skipWs cs
  match parseVal (cs'.length + 1) cs' with
  | some (j, rest) => if skipWs rest = [] then some j else none
  | none => none

example : Json.parse ['{', '"', 'a', '"', ':', '1', '}'] = some (.obj [("a", .num 1)]) := rfl
example : Json.parse ['{', '"', 'b', '"', ':', '2'] = none := rfl
example : Json.parse ['n', 'o', 'p', 'e'] = none := rfl

/-! ## Newline framing (`buffer.split('\n')` and the retained remainder)

`splitNl` mirrors JavaScript `String.prototype.split('\n')` on a
character list: it always returns at least one (possibly empty)
segment, and none of the segments contains a newline. -/

/-- JS `s.split('\n')`. -/
def splitNl : List Char → List (List Char)
  | [] => [[]]
  | c :: cs =>
    if c = '\n' then [] :: splitNl cs
    else
      match splitNl cs with
      | s :: ss => (c :: s) :: ss
      | [] => [[c]]

/-- Rejoin split segments with newlines (left inverse of `splitNl`). -/
def joinNl : List (List Char) → List Char
  | [] => []
  | [s] => s
  | s :: ss => s ++ '\n' :: joinNl ss

theorem splitNl_ne_nil (cs : List Char) : splitNl cs ≠ [] := by
  cases cs with
  | nil => simp [splitNl]
  | cons c cs =>
    simp only [splitNl]
    by_cases hc : c = '\n'
    · simp [hc]
    · rw [if_neg hc]
      cases h : splitNl cs with
      | nil => simp
      | cons s ss => simp

theorem joinNl_splitNl (cs : List Char) : joinNl (splitNl cs) = cs := by
  induction cs with
  | nil => rfl
  | cons c cs ih =>
    simp only [splitNl]
    by_cases hc : c = '\n'
    · subst hc
      rw [if_pos rfl]
      cases h : splitNl cs with
      | nil => exact absurd h (splitNl_ne_nil cs)
      | cons s ss =>
        rw [h] at ih
        have e1 : joinNl ([] :: s :: ss) = '\n' :: joinNl (s :: ss) := rfl
        rw [e1, ih]
    · rw [if_neg hc]
      cases h : splitNl cs with
      | nil => exact absurd h (splitNl_ne_nil cs)
      | cons s ss =>
        rw [h] at ih
        cases ss with
        | nil =>
          have e1 : joinNl [c :: s] = c :: s := rfl
          have e2 : joinNl [s] = s := rfl
          rw [e2] at ih
          rw [e1, ih]
        | cons s' ss' =>
          have e1 : joinNl ((c :: s) :: s' :: ss') = (c :: s) ++ '\n' :: joinNl (s' :: ss') := rfl
          have e2 : joinNl (s :: s' :: ss') = s ++ '\n' :: joinNl (s' :: ss') := rfl
          rw [e2] at ih
          rw [e1, List.cons_append, ih]

theorem splitNl_no_newline (cs : List Char) :
    ∀ s ∈ splitNl cs, '\n' ∉ s := by
  induction cs with
  | nil =>
    intro s hs
    simp only [splitNl, List.mem_singleton] at hs
    simp [hs]
  | cons c cs ih =>
    intro s hs
    simp only [splitNl] at hs
    by_cases hc : c = '\n'
    · rw [if_pos hc] at hs
      rcases List.mem_cons.mp hs with h1 | h2
      · simp [h1]
      · exact ih s h2
    · rw [if_neg hc] at hs
      cases h : splitNl cs with
      | nil => exact absurd h (splitNl_ne_nil cs)
      | cons t ts =>
        rw [h] at hs
        rcases List.mem_cons.mp hs with h1 | h2
        · subst h1
          intro hmem
          rcases List.mem_cons.mp hmem with h3 | h4
          · exact hc h3.symm
          · exact ih t (by rw [h]; exact List.mem_cons_self t ts) h4
        · exact ih s (by rw [h]; exact List.mem_cons_of_mem t h2)

/-- JS `!line.trim()`: the line is empty or all-whitespace. -/
def isBlank (line : List Char) : Bool :=
  line.all fun c => c.isWhitespace

/-! ## Pending requests, settlements, and the live-process state

A `Pending` models one `{resolve, reject}` entry of
`MCPProcess.messageQueue`.  Callback identity (`p.resolve === resolve`
in the timer) is modelled by the `handle`, which is the JSON-RPC request
id allocated when the request was sent (`++mcpProcess.requestId`); each
`sendRequest` call creates fresh closures, so distinct sends have
distinct handles.  `method` is the method captured by the request's
closures, `deadline` the instant at which its 30-second timer is due. -/
structure Pending where
  handle : Nat
  method : String
  deadline : Nat
  deriving Repr, DecidableEq

/-- How a pending request's promise was settled (ghost record of the
`resolve`/`reject` calls). -/
inductive SettleKind where
  /-- `pending.resolve(message.result)`; `none` models `undefined`
  (the frame had no `result` member). -/
  | resolved (result : Option Json)
  /-- `pending.reject(new Error(message.error.message || 'MCP error'))`. -/
  | remoteError (msg : String)
  /-- `reject(new Error('MCP request timeout: ' + method))` from the
  30-second timer. -/
  | timedOut (method : String)
  /-- `reject(error)` after `stdin.write` threw inside `sendRequest`. -/
  | writeFailed
  deriving Repr

/-- A tool discovered via `tools/list` (interface `MCPTool`, source
lines 31–35). -/
structure MCPTool where
  name : String
  description : String
  inputSchema : Json
  deriving Repr

/-- The runtime half of an `MCPProcess`, with ghost fields `log`
(the promise settlements performed so far, in order) and `warnings`
(the lines passed to `console.warn`). -/
structure ProcModel where
  pid : Nat
  url : String
  messageQueue : List Pending
  requestId : Nat
  tools : List MCPTool
  buffer : List Char
  log : List (Nat × SettleKind)
  warnings : List (List Char)

/-- A freshly spawned `MCPProcess` (source lines 143–155). -/
def initProc (pid : Nat) (url : String) : ProcModel :=
  { pid := pid, url := url, messageQueue := [], requestId := 0,
    tools := [], buffer := [], log := [], warnings := [] }

/-- The body of the per-line loop of `handleStdout` (source lines
257–277), acting on the message queue and the ghost log; the third
component is the line `console.warn` reports, if any.

Branches, following the source exactly: a blank line is skipped; a line
`JSON.parse` rejects is warned about and dropped; on a parsed object
with an `id` member the oldest pending entry is shifted off and settled
(except that an `error: null` member makes `message.error.message`
throw after the shift, so the entry is lost unsettled and the exception
is logged); a parsed array has no `id` property and is skipped; `'id' in x`
on a parsed primitive throws, which the catch turns into a warning. -/
def lineCore (queue : List Pending) (log : List (Nat × SettleKind)) (line : List Char) :
    List Pending × List (Nat × SettleKind) × Option (List Char) :=
  if isBlank line then (queue, log, none)
  else
    match Json.parse line with
    | none => (queue, log, some (line.take 100))
    | some msg =>
      match msg with
      | .obj fields =>
        if (lookupField fields "id").isSome then
          match queue with
          | [] => (queue, log, none)
          | p :: rest =>
            match lookupField fields "error" with
            | some .null => (rest, log, some (line.take 100))
            | some e => (rest, log ++ [(p.handle, .remoteError (mcpErrorMessage e))], none)
            | none => (rest, log ++ [(p.handle, .resolved (lookupField fields "result"))], none)
        else (queue, log, none)
      | .arr _ => (queue, log, none)
      | _ => (queue, log, some (line.take 100))

/-- One iteration of the `handleStdout` line loop on the process
state. -/
def handleLine (p : ProcModel) (line : List Char) : ProcModel :=
  let r := lineCore p.messageQueue p.log line
  { p with messageQueue := r.1, log := r.2.1,
           warnings := p.warnings ++ r.2.2.toList }

/-- The whole line loop. -/
def handleLines (lines : List (List Char)) (p : ProcModel) : ProcModel :=
  lines.foldl handleLine p

/-- `handleStdout(id, data)` (source lines 246–278) for a present
process entry: append the chunk to the buffer, split on newline, keep
the final (possibly incomplete) segment as the new buffer, and run the
line loop over the fully-terminated segments. -/
def handleStdout (p : ProcModel) (data : List Char) : ProcModel :=
  let lines := splitNl (p.buffer ++ data)
  handleLines lines.dropLast { p with buffer := (lines.getLast?).getD [] }

/-- The frame-decoding performed on one fully-terminated segment:
blank segments are skipped, unparsable segments yield nothing. -/
def decodeLine (line : List Char) : Option Json :=
  if isBlank line then none else Json.parse line

/-- The Frame Parser view of `handleStdout`: feeding one chunk returns
the new accumulator and the decoded frames, in order. -/
def feed (buffer data : List Char) : List Char × List Json :=
  let lines := splitNl (buffer ++ data)
  ((lines.getLast?).getD [], lines.dropLast.filterMap decodeLine)

/-! ## The correlator as a transition system

The single-threaded event loop interleaves four kinds of callbacks that
touch a live process's `messageQueue`: a stdout `'data'` event, a
`sendRequest` call (whose synchronous part pushes a pending entry,
schedules a 30-second timer, and on a write failure pops the entry back
off and rejects), the firing of one such timer, and the process `'exit'`
event.  Each event runs to completion before the next starts.

The outcome of `stdin.write` is an environment parameter of the send
event.  A `sendRequest` made with no process entry rejects immediately
without allocating an id, registering a pending entry or scheduling a
timer (source lines 286–289); it never touches this state and is
therefore not an event here. -/

/-- `setTimeout(..., 30000)` (source line 315). -/
def requestTimeoutMs : Nat := 30000

/-- One event-loop turn touching a live process. -/
inductive PEvent where
  /-- A stdout `'data'` callback delivering one chunk. -/
  | stdout (data : List Char)
  /-- The synchronous part of `sendRequest(id, method, params)` started
  at clock instant `t`; `writeOk` is whether `stdin.write` returned
  normally. -/
  | sendReq (t : Nat) (method : String) (writeOk : Bool)
  /-- The 30-second timer of the request whose completion callbacks are
  identified by `h` fires. -/
  | timerFire (h : Nat)
  /-- The process `'exit'` callback.  It only deletes the manager's
  `processes` entry and downgrades the connection record; it does not
  touch the message queue, settle any pending promise, or cancel any
  timer (source lines 180–189). -/
  | procExit

/-- One step of the correlator (the source lines are given per
branch). -/
def pstep (p : ProcModel) : PEvent → ProcModel
  | .stdout data => handleStdout p data
  | .sendReq t method true =>
    -- lines 291–302: allocate `++requestId`, push `{resolve, reject}`,
    -- write succeeds, timer scheduled for `t + 30000`.
    { p with requestId := p.requestId + 1,
             messageQueue := p.messageQueue ++
               [⟨p.requestId + 1, method, t + requestTimeoutMs⟩] }
  | .sendReq _ _ false =>
    -- lines 291–306: push, write throws, `messageQueue.pop()` removes
    -- the entry just pushed, `reject(error)`; the timer is still
    -- scheduled but will find no entry.
    { p with requestId := p.requestId + 1,
             log := p.log ++ [(p.requestId + 1, .writeFailed)] }
  | .timerFire h =>
    -- lines 309–315: find the entry whose `resolve` is this timer's
    -- (identified by handle), splice it out, reject with the timeout
    -- error; if it is gone the timer does nothing.
    match p.messageQueue.find? (fun q => q.handle == h) with
    | some q =>
      { p with messageQueue := p.messageQueue.eraseP (fun q' => q'.handle == h),
               log := p.log ++ [(h, .timedOut q.method)] }
    | none => p
  | .procExit => p

/-- Run a list of event-loop turns. -/
def prun (p : ProcModel) (evs : List PEvent) : ProcModel :=
  evs.foldl pstep p

/-- How many times the promise identified by `h` has been settled. -/
def countSettled (p : ProcModel) (h : Nat) : Nat :=
  (p.log.filter (fun e => e.1 == h)).length

/-- Handles of the currently pending entries. -/
def handlesOf (p : ProcModel) : List Nat :=
  p.messageQueue.map (fun q => q.handle)

/-- Handles that have been settled at least once. -/
def settledOf (p : ProcModel) : List Nat :=
  p.log.map (fun e => e.1)

/-- Correlator invariant: pending handles are distinct, settled handles
are distinct, no handle is both pending and settled, and every handle
mentioned anywhere was allocated by some past send. -/
def ProcInv (p : ProcModel) : Prop :=
  (handlesOf p).Nodup ∧ (settledOf p).Nodup ∧
  (∀ a ∈ handlesOf p, a ∉ settledOf p) ∧
  (∀ a ∈ handlesOf p, a ≤ p.requestId) ∧
  (∀ a ∈ settledOf p, a ≤ p.requestId)

/-! ## The connection manager

JS `Map`s are modelled as insertion-ordered association lists with
`Map.get` / `Map.set` / `Map.delete` semantics. -/

/-- `Map.prototype.get`: the entry for the key (a JS `Map` holds at most
one). -/
def mget {α : Type} : List (String × α) → String → Option α
  | [], _ => none
  | e :: es, k => if e.1 = k then some e.2 else mget es k

/-- `Map.prototype.set`: replace the entry in place if the key exists
(keeping its insertion position), append otherwise. -/
def mset {α : Type} : List (String × α) → String → α → List (String × α)
  | [], k, v => [(k, v)]
  | e :: es, k, v => if e.1 = k then (k, v) :: es else e :: mset es k v

/-- `Map.prototype.delete`: drop the entry for the key (at most one
exists in a JS `Map`). -/
def mdel {α : Type} (m : List (String × α)) (k : String) : List (String × α) :=
  m.filter (fun e => e.1 ≠ k)

/-- `MCPConnection.status` (source line 24). -/
inductive Status where
  | connecting
  | connected
  | disconnected
  | error
  deriving Repr, DecidableEq

/-- A durable connection record (interface `MCPConnection`, source
lines 20–29).  `Option` fields model the optional members; `none` is JS
`undefined`, which `JSON.stringify` omits. -/
structure MCPConnection where
  id : String
  name : String
  url : String
  status : Status
  pid : Option Nat
  tools : Option (List MCPTool)
  error : Option String
  connectedAt : Option Nat
  deriving Repr

/-- The manager's state: the two in-memory maps, the persisted file
(`.claude/mcp-connections.json`, an opaque id → record blob), and a
ghost list of the pids that `proc.kill()` has been called on. -/
structure ManagerState where
  connections : List (String × MCPConnection)
  processes : List (String × ProcModel)
  store : List (String × MCPConnection)
  killed : List Nat

/-- `saveConnections` (source lines 86–99): write every record with its
runtime `pid` stripped. -/
def saveConnections (st : ManagerState) : ManagerState :=
  { st with store := st.connections.map (fun e => (e.1, { e.2 with pid := none })) }

/-- `loadConnections` (source lines 63–81): restore each stored record,
forcing `status` to `disconnected` and clearing `pid`. -/
def loadConnections (st : ManagerState) : ManagerState :=
  let restore := fun m (e : String × MCPConnection) =>
    mset m e.1 { e.2 with status := .disconnected, pid := none }
  { st with connections := st.store.foldl restore st.connections }

/-- A manager constructed at startup over a given persisted file
(source lines 55–58). -/
def initManager (store : List (String × MCPConnection)) : ManagerState :=
  loadConnections { connections := [], processes := [], store := store, killed := [] }

/-- The environment of one `connect` call: every outcome decided outside
the manager's own code.  `initOutcome`, `notifyOutcome` and
`toolsOutcome` summarise how the three awaited handshake steps settle
(`some msg` / `.error msg` is the message of the rejection, which may be
a write failure, the 30-second timeout, or a remote JSON-RPC error);
`toolsOutcome.ok` carries the `tools` member of the `tools/list`
response's `result`, `none` when the response has no such member. -/
structure ConnectEnv where
  aliveProbe : Bool
  spawnPid : Option Nat
  initOutcome : Option String
  notifyOutcome : Option String
  toolsOutcome : Except String (Option (List MCPTool))
  now : Nat

/-- The catch block of `connect` (source lines 225–240): record the
failure message on the connection, kill whatever process entry currently
exists for `id`, delete it, persist, and return the failed record —
nothing is rethrown. -/
def connectFail (st : ManagerState) (id : String) (conn : MCPConnection) (msg : String) :
    MCPConnection × ManagerState :=
  let conn := { conn with status := .error, error := some msg }
  let killed :=
    match mget st.processes id with
    | some p => st.killed ++ [p.pid]
    | none => st.killed
  let st := { st with connections := mset st.connections id conn,
                      processes := mdel st.processes id,
                      killed := killed }
  (conn, saveConnections st)

/-- The try block of `connect` after the duplicate check (source lines
120–240): register the `connecting` record, spawn, register the live
process, then run the handshake; the first failing step routes to the
catch block.  The two awaited requests of a successful handshake leave
`requestId` at 2 and the queue empty, which is recorded directly. -/
def connectSpawn (st0 : ManagerState) (id name url : String) (env : ConnectEnv) :
    MCPConnection × ManagerState :=
  let conn : MCPConnection :=
    { id := id, name := name, url := url, status := .connecting,
      pid := none, tools := none, error := none, connectedAt := none }
  let st := { st0 with connections := mset st0.connections id conn }
  match env.spawnPid with
  | none => connectFail st id conn "Failed to spawn mcp-remote process"
  | some pid =>
    let st := { st with processes := mset st.processes id (initProc pid url) }
    match env.initOutcome with
    | some msg => connectFail st id conn msg
    | none =>
      match env.notifyOutcome with
      | some msg => connectFail st id conn msg
      | none =>
        match env.toolsOutcome with
        | .error msg => connectFail st id conn msg
        | .ok toolsField =>
          let tools := toolsField.getD []
          let conn := { conn with
                        status := .connected, pid := some pid,
                        tools := some tools, connectedAt := some env.now }
          let st := { st with
            processes := mset st.processes id
              { initProc pid url with tools := tools, requestId := 2 },
            connections := mset st.connections id conn }
          (conn, saveConnections st)

/-- `connect(id, name, url)` (source lines 105–241).  The duplicate
check: with a live entry whose pid probes alive and an existing record,
return that record unchanged; a dead probe deletes the stale entry
first; in every other case fall through to spawning. -/
def connect (st : ManagerState) (id name url : String) (env : ConnectEnv) :
    MCPConnection × ManagerState :=
  match mget st.processes id with
  | some _ =>
    if env.aliveProbe then
      match mget st.connections id with
      | some conn => (conn, st)
      | none => connectSpawn st id name url env
    else
      connectSpawn { st with processes := mdel st.processes id } id name url env
  | none => connectSpawn st id name url env

/-- `getConnection` (source lines 368–370). -/
def getConnection (st : ManagerState) (id : String) : Option MCPConnection :=
  mget st.connections id

/-- `isConnected` (source lines 375–378). -/
def isConnected (st : ManagerState) (id : String) : Bool :=
  match mget st.connections id with
  | some c => c.status == .connected
  | none => false

/-- Whether this `connect` call reaches the spawn/handshake path rather
than returning the existing record. -/
def takesSpawnPath (st : ManagerState) (env : ConnectEnv) (id : String) : Bool :=
  match mget st.processes id with
  | none => true
  | some _ => !env.aliveProbe || (mget st.connections id).isNone

/-- The message of the first failing step of the environment, if any —
exactly the error the catch block of `connect` observes. -/
def envFailure (env : ConnectEnv) : Option String :=
  match env.spawnPid with
  | none => some "Failed to spawn mcp-remote process"
  | some _ =>
    match env.initOutcome with
    | some msg => some msg
    | none =>
      match env.notifyOutcome with
      | some msg => some msg
      | none =>
        match env.toolsOutcome with
        | .error msg => some msg
        | .ok _ => none

/-- The image of the in-memory connection map under the persistence
write (`pid` stripped from every record). -/
def persistView (m : List (String × MCPConnection)) : List (String × MCPConnection) :=
  m.map (fun e => (e.1, { e.2 with pid := none }))

/-! ### Association-map laws -/

theorem mget_mset_self {α : Type} (m : List (String × α)) (k : String) (v : α) :
    mget (mset m k v) k = some v := by
  induction m with
  | nil => simp [mget, mset]
  | cons e es ih =>
    by_cases he : e.1 = k
    · simp [mset, mget, he]
    · simp [mset, mget, he, ih]

theorem mget_mset_ne {α : Type} (m : List (String × α)) (k k' : String) (v : α)
    (h : k ≠ k') : mget (mset m k v) k' = mget m k' := by
  induction m with
  | nil => simp [mget, mset, h]
  | cons e es ih =>
    by_cases he : e.1 = k
    · simp [mset, mget, he, h]
    · by_cases he' : e.1 = k'
      · simp [mset, mget, he, he', Ne.symm h]
      · simp [mset, mget, he, he', ih]

theorem mget_mdel_self {α : Type} (m : List (String × α)) (k : String) :
    mget (mdel m k) k = none := by
  induction m with
  | nil => simp [mget, mdel]
  | cons e es ih =>
    by_cases he : e.1 = k
    · simpa [mdel, he] using ih
    · simpa [mdel, mget, he] using ih

theorem mget_persistView (m : List (String × MCPConnection)) (k : String) :
    mget (persistView m) k = (mget m k).map (fun c => { c with pid := none }) := by
  induction m with
  | nil => simp [mget, persistView]
  | cons e es ih =>
    by_cases he : e.1 = k
    · simp [persistView, mget, he]
    · simpa [persistView, mget, he] using ih

/-! ### Helper lemmas for `connect` -/

/-- When the duplicate check does not return early, `connect` is
`connectSpawn` on some base state. -/
theorem connect_spawnPath (st : ManagerState) (id name url : String) (env : ConnectEnv)
    (hpath : takesSpawnPath st env id = true) :
    ∃ st', connect st id name url env = connectSpawn st' id name url env := by
  unfold connect
  unfold takesSpawnPath at hpath
  cases hp : mget st.processes id with
  | none => exact ⟨st, rfl⟩
  | some p =>
    rw [hp] at hpath
    cases ha : env.aliveProbe with
    | false =>
      exact ⟨{ st with processes := mdel st.processes id }, by simp [ha]⟩
    | true =>
      rw [ha] at hpath
      simp only [Bool.not_true, Bool.false_or] at hpath
      cases hc : mget st.connections id with
      | none => exact ⟨st, by simp [ha, hc]⟩
      | some c => rw [hc] at hpath; simp [Option.isNone] at hpath

/-- A failing environment routes `connectSpawn` into the catch block,
whatever the base state. -/
theorem connectSpawn_failure (st : ManagerState) (id name url : String) (env : ConnectEnv)
    (msg : String) (hfail : envFailure env = some msg) :
    (connectSpawn st id name url env).1.id = id ∧
    (connectSpawn st id name url env).1.status = .error ∧
    (connectSpawn st id name url env).1.error = some msg ∧
    mget (connectSpawn st id name url env).2.processes id = none ∧
    (∀ pid, env.spawnPid = some pid → pid ∈ (connectSpawn st id name url env).2.killed) ∧
    (connectSpawn st id name url env).2.store =
      persistView (connectSpawn st id name url env).2.connections ∧
    mget (connectSpawn st id name url env).2.connections id =
      some (connectSpawn st id name url env).1 := by
  unfold envFailure at hfail
  cases hsp : env.spawnPid with
  | none =>
    rw [hsp] at hfail
    injection hfail with hmsg
    subst hmsg
    refine ⟨?_, ?_, ?_, ?_, ?_, ?_, ?_⟩ <;>
      simp [connectSpawn, hsp, connectFail, saveConnections, persistView,
            mget_mdel_self, mget_mset_self]
  | some pid =>
    rw [hsp] at hfail
    cases hi : env.initOutcome with
    | some m =>
      rw [hi] at hfail
      injection hfail with hmsg
      subst hmsg
      refine ⟨?_, ?_, ?_, ?_, ?_, ?_, ?_⟩ <;>
        simp [connectSpawn, hsp, hi, connectFail, saveConnections, persistView,
              mget_mdel_self, mget_mset_self, initProc]
    | none =>
      rw [hi] at hfail
      cases hn : env.notifyOutcome with
      | some m =>
        rw [hn] at hfail
        injection hfail with hmsg
        subst hmsg
        refine ⟨?_, ?_, ?_, ?_, ?_, ?_, ?_⟩ <;>
          simp [connectSpawn, hsp, hi, hn, connectFail, saveConnections, persistView,
                mget_mdel_self, mget_mset_self, initProc]
      | none =>
        rw [hn] at hfail
        cases ht : env.toolsOutcome with
        | error m =>
          rw [ht] at hfail
          injection hfail with hmsg
          subst hmsg
          refine ⟨?_, ?_, ?_, ?_, ?_, ?_, ?_⟩ <;>
            simp [connectSpawn, hsp, hi, hn, ht, connectFail, saveConnections, persistView,
                  mget_mdel_self, mget_mset_self, initProc]
        | ok tf => rw [ht] at hfail; cases hfail

/-- A fully successful environment drives `connectSpawn` to the
`connected` record, whatever the base state. -/
theorem connectSpawn_success (st : ManagerState) (id name url : String) (env : ConnectEnv)
    (pid : Nat) (toolsField : Option (List MCPTool))
    (hs : env.spawnPid = some pid) (hi : env.initOutcome = none)
    (hn : env.notifyOutcome = none) (ht : env.toolsOutcome = .ok toolsField) :
    mget (connectSpawn st id name url env).2.connections id =
      some (connectSpawn st id name url env).1 ∧
    (connectSpawn st id name url env).1.status = .connected ∧
    (connectSpawn st id name url env).1.tools = some (toolsField.getD []) ∧
    (connectSpawn st id name url env).1.connectedAt = some env.now := by
  refine ⟨?_, ?_, ?_, ?_⟩ <;>
    simp [connectSpawn, hs, hi, hn, ht, saveConnections, mget_mset_self]

/-! ### Fixtures for concrete witnesses -/

/-- Demo server URL used by witnesses. -/
def demoUrl : String := "https://mcp.atlassian.com/v1/sse"

/-- A connected demo record. -/
def demoConn : MCPConnection :=
  { id := "jira", name := "Jira", url := demoUrl, status := .connected,
    pid := some 4242, tools := some [], error := none, connectedAt := some 1000 }

/-- A manager holding a live process and record for `"jira"`. -/
def demoProcSt : ManagerState :=
  { connections := [("jira", demoConn)],
    processes := [("jira", initProc 4242 demoUrl)],
    store := [], killed := [] }

/-- Environment whose spawn yields no pid. -/
def spawnFailEnv : ConnectEnv :=
  { aliveProbe := false, spawnPid := none, initOutcome := none,
    notifyOutcome := none, toolsOutcome := .ok none, now := 7 }

/-- Environment of a liveness probe that succeeds. -/
def aliveEnv : ConnectEnv :=
  { aliveProbe := true, spawnPid := none, initOutcome := none,
    notifyOutcome := none, toolsOutcome := .ok none, now := 0 }

/-- The one tool of the end-to-end scenario. -/
def searchTool : MCPTool :=
  { name := "search", description := "Search Jira issues", inputSchema := .obj [] }

/-- Environment of a fully successful handshake discovering
`searchTool`. -/
def successEnv : ConnectEnv :=
  { aliveProbe := false, spawnPid := some 4242, initOutcome := none,
    notifyOutcome := none, toolsOutcome := .ok (some [searchTool]), now := 1000 }

/-! ### The claims about `connect` and persistence -/

/-- **C1.** For every id, name, url: when any step of `connect` after
registration fails (no pid from the spawn, or the `initialize` /
`tools/list` request fails or times out — any environment whose first
failure carries message `msg`), `connect` returns — it is a total
function, nothing is rethrown — a Connection for `id` with status
`error` and the failure message in its `error` field; the spawned
process, if one exists, has been killed; the LiveProcess entry for `id`
is gone; and the store has been rewritten from the connection map
(persisted). -/
theorem connect_absorbs_failure (st : ManagerState) (id name url : String)
    (env : ConnectEnv) (msg : String)
    (hpath : takesSpawnPath st env id = true)
    (hfail : envFailure env = some msg) :
    (connect st id name url env).1.id = id ∧
    (connect st id name url env).1.status = .error ∧
    (connect st id name url env).1.error = some msg ∧
    mget (connect st id name url env).2.processes id = none ∧
    (∀ pid, env.spawnPid = some pid → pid ∈ (connect st id name url env).2.killed) ∧
    (connect st id name url env).2.store =
      persistView (connect st id name url env).2.connections ∧
    mget (connect st id name url env).2.connections id =
      some (connect st id name url env).1 := by
  obtain ⟨st', heq⟩ := connect_spawnPath st id name url env hpath
  rw [heq]
  exact connectSpawn_failure st' id name url env msg hfail

/-- Witness for C1: a failed spawn on a fresh manager yields an `error`
record carrying the spawn failure message, and no live process. -/
theorem connect_absorbs_failure_witness :
    (connect (initManager []) "jira" "Jira" demoUrl spawnFailEnv).1.status = .error ∧
    (connect (initManager []) "jira" "Jira" demoUrl spawnFailEnv).1.error =
      some "Failed to spawn mcp-remote process" ∧
    mget (connect (initManager []) "jira" "Jira" demoUrl spawnFailEnv).2.processes "jira" =
      none := by
  have h := connect_absorbs_failure (initManager []) "jira" "Jira" demoUrl spawnFailEnv
    "Failed to spawn mcp-remote process" rfl rfl
  exact ⟨h.2.1, h.2.2.1, h.2.2.2.1⟩

/-- **C2.** For every id: after a `connect` that completes successfully
(the spawn yielded a pid and the `initialize` and `tools/list` requests
both resolved), `isConnected id` is true and the returned record — which
is what `getConnection id` now yields — carries exactly the tools list
of the `tools/list` response (the empty list when the response has no
`tools` member) and `connectedAt` set to the current time. -/
theorem connect_success_connected (st : ManagerState) (id name url : String)
    (env : ConnectEnv) (pid : Nat) (toolsField : Option (List MCPTool))
    (hpath : takesSpawnPath st env id = true)
    (hs : env.spawnPid = some pid) (hi : env.initOutcome = none)
    (hn : env.notifyOutcome = none) (ht : env.toolsOutcome = .ok toolsField) :
    isConnected (connect st id name url env).2 id = true ∧
    getConnection (connect st id name url env).2 id = some (connect st id name url env).1 ∧
    (connect st id name url env).1.tools = some (toolsField.getD []) ∧
    (connect st id name url env).1.connectedAt = some env.now := by
  obtain ⟨st', heq⟩ := connect_spawnPath st id name url env hpath
  rw [heq]
  have h := connectSpawn_success st' id name url env pid toolsField hs hi hn ht
  refine ⟨?_, ?_, h.2.2.1, h.2.2.2⟩
  · simp [isConnected, h.1, h.2.1]
  · simpa [getConnection] using h.1

/-- Witness for C2: the end-to-end scenario — connecting `"jira"`
against a stub replying to `tools/list` with one `search` tool leaves
the connection `connected` with exactly that tool. -/
theorem connect_success_connected_witness :
    isConnected (connect (initManager []) "jira" "Jira" demoUrl successEnv).2 "jira" = true ∧
    (connect (initManager []) "jira" "Jira" demoUrl successEnv).1.tools =
      some [searchTool] ∧
    (connect (initManager []) "jira" "Jira" demoUrl successEnv).1.connectedAt = some 1000 := by
  have h := connect_success_connected (initManager []) "jira" "Jira" demoUrl successEnv
    4242 (some [searchTool]) rfl rfl rfl rfl rfl
  exact ⟨h.1, h.2.2.1, h.2.2.2⟩

/-- **C3.** For every id: when a LiveProcess entry for `id` exists, its
pid probes alive, and a Connection record for `id` exists, a second
`connect` returns exactly that record and leaves the whole manager state
(both maps and the store) unchanged — a duplicate connect is an
idempotent no-op. -/
theorem connect_duplicate_noop (st : ManagerState) (id name url : String)
    (env : ConnectEnv) (p : ProcModel) (c : MCPConnection)
    (hp : mget st.processes id = some p) (ha : env.aliveProbe = true)
    (hc : mget st.connections id = some c) :
    connect st id name url env = (c, st) := by
  simp [connect, hp, ha, hc]

/-- Witness for C3: a duplicate connect against the live `"jira"` entry
returns the stored record and the untouched state. -/
theorem connect_duplicate_noop_witness :
    connect demoProcSt "jira" "Jira" demoUrl aliveEnv = (demoConn, demoProcSt) :=
  connect_duplicate_noop demoProcSt "jira" "Jira" demoUrl aliveEnv
    (initProc 4242 demoUrl) demoConn rfl rfl rfl

/-- **C8.** For every Connection record: saving it and loading the store
back into a fresh manager yields the same record except that `pid` is
cleared (stripped before every write) and `status` is forced to
`disconnected` (forced on every load). -/
theorem persistence_roundtrip (id : String) (c : MCPConnection) :
    mget (initManager (saveConnections
        { connections := [(id, c)], processes := [], store := [], killed := [] }).store).connections
        id
      = some { c with pid := none, status := .disconnected } := by
  simp [saveConnections, initManager, loadConnections, mset, mget]

/-! ### The claims about the frame parser and response dispatch -/

/-- First chunk of the split-frame scenario:
the text of the two frames with the second one cut mid-document. -/
def chunkA : List Char :=
  ['{', '"', 'a', '"', ':', '1', '}', '\n', '{', '"', 'b', '"', ':', '2']

/-- Second chunk: the tail of the second frame plus its newline. -/
def chunkB : List Char := ['}', '\n']

/-- **C4.** The frame parser reassembles frames split across chunks:
from an empty accumulator, the two chunks of the scenario yield exactly
the two frames, in order, and leave the accumulator empty; and in
general, for every accumulator and chunk, the emitted frames are the
decodes of newline-terminated segments whose rejoining with the retained
(newline-free) remainder reconstructs accumulator-plus-chunk exactly. -/
theorem frame_reassembly :
    ((feed [] chunkA).2 ++ (feed (feed [] chunkA).1 chunkB).2 =
        [Json.obj [("a", Json.num 1)], Json.obj [("b", Json.num 2)]] ∧
      (feed (feed [] chunkA).1 chunkB).1 = []) ∧
    (∀ buffer data : List Char, ∃ segs : List (List Char),
      (feed buffer data).2 = segs.filterMap decodeLine ∧
      joinNl (segs ++ [(feed buffer data).1]) = buffer ++ data ∧
      (∀ s ∈ segs, '\n' ∉ s) ∧ '\n' ∉ (feed buffer data).1) := by
  constructor
  · exact ⟨rfl, rfl⟩
  · intro buffer data
    have hne := splitNl_ne_nil (buffer ++ data)
    have hgl : (splitNl (buffer ++ data)).getLast? =
        some ((splitNl (buffer ++ data)).getLast hne) :=
      List.getLast?_eq_getLast_of_ne_nil hne
    have hsplit : (splitNl (buffer ++ data)).dropLast ++
        [(splitNl (buffer ++ data)).getLast hne] = splitNl (buffer ++ data) :=
      List.dropLast_append_getLast? _ (by rw [hgl]; rfl)
    have hacc : (feed buffer data).1 = (splitNl (buffer ++ data)).getLast hne := by
      show ((splitNl (buffer ++ data)).getLast?).getD [] = _
      rw [hgl]
      rfl
    refine ⟨(splitNl (buffer ++ data)).dropLast, rfl, ?_, ?_, ?_⟩
    · rw [hacc, hsplit, joinNl_splitNl]
    · intro s hs
      refine splitNl_no_newline (buffer ++ data) s ?_
      rw [← hsplit]
      exact List.mem_append_left _ hs
    · rw [hacc]
      exact splitNl_no_newline (buffer ++ data) _ (List.getLast_mem hne)

/-- `handleLine` on a state whose warnings were replaced: the processing
is unchanged and the warning delta is the same. -/
theorem handleLine_warnings_congr (p : ProcModel) (w : List (List Char)) (l : List Char) :
    handleLine { p with warnings := w } l =
      { handleLine p l with
        warnings := w ++ (lineCore p.messageQueue p.log l).2.2.toList } := rfl

/-- The line loop never lets the warnings ghost field influence the
queue, the log, or the buffer. -/
theorem handleLines_core_congr (ls : List (List Char)) (p : ProcModel)
    (w : List (List Char)) :
    (handleLines ls { p with warnings := w }).messageQueue =
      (handleLines ls p).messageQueue ∧
    (handleLines ls { p with warnings := w }).log = (handleLines ls p).log ∧
    (handleLines ls { p with warnings := w }).buffer = (handleLines ls p).buffer := by
  induction ls generalizing p w with
  | nil => exact ⟨rfl, rfl, rfl⟩
  | cons l ls ih =>
    show ((handleLines ls (handleLine { p with warnings := w } l)).messageQueue = _) ∧ _
    rw [handleLine_warnings_congr]
    exact ih (handleLine p l) _

/-- **C5.** For every stream state: a nonblank segment that fails JSON
parsing is dropped with a warning (the line, clipped to 100 characters)
and has no other effect — the handler returns normally with the pending
queue, settlement log and buffer exactly as produced by processing the
remaining lines alone, so every subsequent well-formed frame is still
decoded and dispatched. -/
theorem malformed_line_harmless (p : ProcModel) (line : List Char)
    (rest : List (List Char))
    (hnb : isBlank line = false) (hpf : Json.parse line = none) :
    handleLine p line = { p with warnings := p.warnings ++ [line.take 100] } ∧
    handleLines (line :: rest) p =
      handleLines rest { p with warnings := p.warnings ++ [line.take 100] } ∧
    (handleLines (line :: rest) p).messageQueue = (handleLines rest p).messageQueue ∧
    (handleLines (line :: rest) p).log = (handleLines rest p).log ∧
    (handleLines (line :: rest) p).buffer = (handleLines rest p).buffer := by
  have h1 : handleLine p line = { p with warnings := p.warnings ++ [line.take 100] } := by
    simp [handleLine, lineCore, hnb, hpf]
  have h2 : handleLines (line :: rest) p =
      handleLines rest { p with warnings := p.warnings ++ [line.take 100] } := by
    show handleLines rest (handleLine p line) = _
    rw [h1]
  have h3 := handleLines_core_congr rest p (p.warnings ++ [line.take 100])
  exact ⟨h1, h2, by rw [h2]; exact h3.1, by rw [h2]; exact h3.2.1,
         by rw [h2]; exact h3.2.2⟩

/-- An unparsable stdout line. -/
def badLine : List Char := ['n', 'o', 't', ' ', 'j', 's', 'o', 'n']

/-- A well-formed response frame `{"id":1,"result":5}`. -/
def goodFrame : List Char :=
  ['{', '"', 'i', 'd', '"', ':', '1', ',', '"', 'r', 'e', 's', 'u', 'l', 't', '"', ':', '5', '}']

/-- A stream state with one pending request of handle 1. -/
def c5Proc : ProcModel :=
  { pid := 9, url := "u", messageQueue := [⟨1, "tools/call", 30000⟩], requestId := 1,
    tools := [], buffer := [], log := [], warnings := [] }

/-- Witness for C5: the corrupt line only adds a warning, and the
well-formed frame after it still resolves the pending request. -/
theorem malformed_line_harmless_witness :
    handleLines [badLine, goodFrame] c5Proc =
      handleLines [goodFrame] { c5Proc with warnings := [badLine.take 100] } ∧
    (handleLines [badLine, goodFrame] c5Proc).log = [(1, .resolved (some (.num 5)))] ∧
    (handleLines [badLine, goodFrame] c5Proc).messageQueue = [] := by
  have h := malformed_line_harmless c5Proc badLine [goodFrame] rfl rfl
  exact ⟨h.2.1, rfl, rfl⟩

/-- A stream state with one pending request of handle 5. -/
def c9Proc : ProcModel :=
  { pid := 8, url := "u", messageQueue := [⟨5, "tools/call", 31000⟩], requestId := 5,
    tools := [], buffer := [], log := [], warnings := [] }

/-- The frame `{"id":77,"result":3}`, whose id 77 matches no pending
request. -/
def c9Line : List Char :=
  ['{', '"', 'i', 'd', '"', ':', '7', '7', ',', '"', 'r', 'e', 's', 'u', 'l', 't', '"', ':', '3', '}']

/-- The frame `{"id":1,"error":null}`: an `error` member that makes
`message.error.message` throw after the queue shift. -/
def c9nullLine : List Char :=
  ['{', '"', 'i', 'd', '"', ':', '1', ',', '"', 'e', 'r', 'r', 'o', 'r', '"', ':',
   'n', 'u', 'l', 'l', '}']

/-- The frame `{"id":1,"error":{"message":""}}`: an error whose
`message` is falsy. -/
def c9falsyLine : List Char :=
  ['{', '"', 'i', 'd', '"', ':', '1', ',', '"', 'e', 'r', 'r', 'o', 'r', '"', ':',
   '{', '"', 'm', 'e', 's', 's', 'a', 'g', 'e', '"', ':', '"', '"', '}', '}']

/-- Counterexample to C9 as stated.  The claim promises that every
decoded frame with an `id` member completes the oldest pending request,
rejecting it with the frame's `error.message` when an `error` member is
present.  Both promises fail: the frame `{"id":1,"error":null}` carries
an `id` and an `error` member, yet it pops the pending request (handle
5) off the queue and settles nothing — the completion handle is lost,
only a warning is logged; and the frame `{"id":1,"error":{"message":""}}`
rejects with the fallback `'MCP error'`, not with the frame's
`error.message`, which is the (distinct) empty string. -/
theorem positional_correlation_counterexample :
    Json.parse c9nullLine = some (.obj [("id", .num 1), ("error", .null)]) ∧
    (handleLine c9Proc c9nullLine).messageQueue = [] ∧
    (handleLine c9Proc c9nullLine).log = [] ∧
    (handleLine c9Proc c9nullLine).warnings = [c9nullLine.take 100] ∧
    Json.parse c9falsyLine =
      some (.obj [("id", .num 1), ("error", .obj [("message", .str "")])]) ∧
    (handleLine c9Proc c9falsyLine).log = [(5, .remoteError "MCP error")] ∧
    ("MCP error" : String) ≠ "" :=
  ⟨rfl, rfl, rfl, rfl, rfl, rfl, by decide⟩

/-- **C9** (amended).  For every decoded frame that is an object with an
`id` member of any value `idv` — no relation between `idv` and the
pending request's own id is required, correlation is positional,
oldest-pending-first — the oldest pending entry is popped, and: with no
`error` member it is resolved with the frame's `result` member; with a
non-null `error` member it is rejected, the message being the error's
own `message` when that is a truthy string and the fallback
`'MCP error'` otherwise; and with an `error` member that is exactly
null, the popped entry is lost without ever being settled — the handler
throws while building the rejection, the per-line catch logs a warning,
and no completion happens. -/
theorem positional_dispatch (p : ProcModel) (line : List Char)
    (fields : List (String × Json)) (pend : Pending) (rest : List Pending) (idv : Json)
    (hnb : isBlank line = false)
    (hp : Json.parse line = some (.obj fields))
    (hid : lookupField fields "id" = some idv)
    (hq : p.messageQueue = pend :: rest) :
    (lookupField fields "error" = none →
      handleLine p line =
        { p with
          messageQueue := rest,
          log := p.log ++ [(pend.handle, .resolved (lookupField fields "result"))] }) ∧
    (∀ e, lookupField fields "error" = some e → e ≠ .null →
      handleLine p line =
        { p with
          messageQueue := rest,
          log := p.log ++ [(pend.handle, .remoteError (mcpErrorMessage e))] }) ∧
    (∀ efields m, lookupField fields "error" = some (.obj efields) →
      lookupField efields "message" = some (.str m) → m ≠ "" →
      mcpErrorMessage (.obj efields) = m) ∧
    (lookupField fields "error" = some .null →
      handleLine p line =
        { p with
          messageQueue := rest,
          warnings := p.warnings ++ [line.take 100] }) := by
  refine ⟨?_, ?_, ?_, ?_⟩
  · intro herr
    simp [handleLine, lineCore, hnb, hp, hid, hq, herr]
  · intro e herr hen
    cases e with
    | null => exact absurd rfl hen
    | bool b => simp [handleLine, lineCore, hnb, hp, hid, hq, herr]
    | num n => simp [handleLine, lineCore, hnb, hp, hid, hq, herr]
    | str s => simp [handleLine, lineCore, hnb, hp, hid, hq, herr]
    | arr es => simp [handleLine, lineCore, hnb, hp, hid, hq, herr]
    | obj fs => simp [handleLine, lineCore, hnb, hp, hid, hq, herr]
  · intro efields m herr hm hne
    simp [mcpErrorMessage, hm, jsTruthy, jsToString, hne]
  · intro herr
    simp [handleLine, lineCore, hnb, hp, hid, hq, herr]

/-- Witness for C9 (amended): a frame with id 77 resolves the oldest
pending request, whose own id is 5 — correlation ignores the frame's id
— and a non-null error object with a falsy message rejects it with the
fallback message. -/
theorem positional_dispatch_witness :
    handleLine c9Proc c9Line =
      { c9Proc with
        messageQueue := [],
        log := [(5, .resolved (some (.num 3)))] } ∧
    handleLine c9Proc c9falsyLine =
      { c9Proc with
        messageQueue := [],
        log := [(5, .remoteError "MCP error")] } := by
  have h1 := positional_dispatch c9Proc c9Line [("id", .num 77), ("result", .num 3)]
    ⟨5, "tools/call", 31000⟩ [] (.num 77) rfl rfl rfl rfl
  have h2 := positional_dispatch c9Proc c9falsyLine
    [("id", .num 1), ("error", .obj [("message", .str "")])]
    ⟨5, "tools/call", 31000⟩ [] (.num 1) rfl rfl rfl rfl
  exact ⟨h1.1 rfl, h2.2.1 (.obj [("message", .str "")]) rfl
    (fun habs => Json.noConfusion habs)⟩

/-- **C10.** If a decoded frame carrying an `id` arrives while the
pending queue is empty (an unsolicited or late response), it is silently
ignored: the handler returns normally, the state — queue included — is
exactly unchanged, and the remaining lines of the chunk are processed as
if the frame had not been there. -/
theorem unsolicited_frame_ignored (p : ProcModel) (line : List Char)
    (fields : List (String × Json)) (rest : List (List Char))
    (hq : p.messageQueue = [])
    (hp : Json.parse line = some (.obj fields))
    (hid : (lookupField fields "id").isSome = true) :
    handleLine p line = p ∧
    handleLines (line :: rest) p = handleLines rest p := by
  have h1 : handleLine p line = p := by
    by_cases hb : isBlank line
    · simp [handleLine, lineCore, hb]
    · simp [handleLine, lineCore, hb, hp, hid, hq]
      rw [← hq]
  refine ⟨h1, ?_⟩
  show handleLines rest (handleLine p line) = handleLines rest p
  rw [h1]

/-- The frame `{"id":9,"result":2}`. -/
def c10Line : List Char :=
  ['{', '"', 'i', 'd', '"', ':', '9', ',', '"', 'r', 'e', 's', 'u', 'l', 't', '"', ':', '2', '}']

/-- A frame without an `id`, following the unsolicited one. -/
def c10After : List Char := ['{', '"', 'a', '"', ':', '1', '}']

/-- Witness for C10: an unsolicited response on an empty queue leaves
the fresh process state untouched and the rest of the chunk processed
normally. -/
theorem unsolicited_frame_ignored_witness :
    handleLine (initProc 3 "u") c10Line = initProc 3 "u" ∧
    handleLines [c10Line, c10After] (initProc 3 "u") =
      handleLines [c10After] (initProc 3 "u") := by
  have h := unsolicited_frame_ignored (initProc 3 "u") c10Line
    [("id", .num 9), ("result", .num 2)] [c10After] rfl rfl rfl
  exact ⟨h.1, h.2⟩

/-! ### Correlator invariants -/

/-- Every line either leaves the queue and log alone, or pops the oldest
pending entry and settles it at most once. -/
theorem lineCore_cases (queue : List Pending) (log : List (Nat × SettleKind))
    (line : List Char) :
    ((lineCore queue log line).1 = queue ∧ (lineCore queue log line).2.1 = log) ∨
    (∃ pd q', queue = pd :: q' ∧ (lineCore queue log line).1 = q' ∧
      ((lineCore queue log line).2.1 = log ∨
       ∃ k, (lineCore queue log line).2.1 = log ++ [(pd.handle, k)])) := by
  unfold lineCore
  by_cases hb : isBlank line
  · simp [hb]
  · simp only [hb, Bool.false_eq_true, if_false]
    cases hp : Json.parse line with
    | none => simp
    | some msg =>
      cases msg with
      | obj fields =>
        by_cases hid : (lookupField fields "id").isSome
        · simp only [hid, if_true]
          cases queue with
          | nil => simp
          | cons pd q' =>
            cases herr : lookupField fields "error" with
            | none => exact Or.inr ⟨pd, q', rfl, rfl, Or.inr ⟨_, rfl⟩⟩
            | some e =>
              cases e with
              | null => exact Or.inr ⟨pd, q', rfl, rfl, Or.inl rfl⟩
              | bool b => exact Or.inr ⟨pd, q', rfl, rfl, Or.inr ⟨_, rfl⟩⟩
              | num n => exact Or.inr ⟨pd, q', rfl, rfl, Or.inr ⟨_, rfl⟩⟩
              | str s => exact Or.inr ⟨pd, q', rfl, rfl, Or.inr ⟨_, rfl⟩⟩
              | arr es => exact Or.inr ⟨pd, q', rfl, rfl, Or.inr ⟨_, rfl⟩⟩
              | obj fs => exact Or.inr ⟨pd, q', rfl, rfl, Or.inr ⟨_, rfl⟩⟩
        · simp [hid]
      | null => simp
      | bool b => simp
      | num n => simp
      | str s => simp
      | arr es => simp

/-- `ProcInv` only looks at the queue, the log and the request
counter. -/
theorem procInv_of_eq (p q : ProcModel) (h : ProcInv p)
    (e1 : q.messageQueue = p.messageQueue) (e2 : q.log = p.log)
    (e3 : q.requestId = p.requestId) : ProcInv q := by
  unfold ProcInv handlesOf settledOf at *
  rw [e1, e2, e3]
  exact h

/-- One line of stdout preserves the correlator invariant and the
request counter. -/
theorem procInv_handleLine (p : ProcModel) (l : List Char) (h : ProcInv p) :
    ProcInv (handleLine p l) := by
  obtain ⟨hq, hs, hd, hbq, hbs⟩ := h
  have hhq : (handleLine p l).messageQueue = (lineCore p.messageQueue p.log l).1 := rfl
  have hhl : (handleLine p l).log = (lineCore p.messageQueue p.log l).2.1 := rfl
  have hhr : (handleLine p l).requestId = p.requestId := rfl
  rcases lineCore_cases p.messageQueue p.log l with ⟨h1, h2⟩ | ⟨pd, q', hsplit, h1, h2⟩
  · exact procInv_of_eq p _ ⟨hq, hs, hd, hbq, hbs⟩ (by rw [hhq, h1]) (by rw [hhl, h2]) hhr
  · have hq' : handlesOf (handleLine p l) = q'.map (fun x => x.handle) := by
      unfold handlesOf
      rw [hhq, h1]
    have hqsplit : handlesOf p = pd.handle :: q'.map (fun x => x.handle) := by
      unfold handlesOf
      rw [hsplit]
      rfl
    rw [hqsplit] at hq hd hbq
    have hqnd := List.nodup_cons.mp hq
    have hpdmem : pd.handle ∉ settledOf p := hd pd.handle (List.mem_cons_self _ _)
    rcases h2 with h2 | ⟨k, h2⟩
    · refine ⟨?_, ?_, ?_, ?_, ?_⟩
      · rw [hq']
        exact hqnd.2
      · show (settledOf (handleLine p l)).Nodup
        unfold settledOf
        rw [hhl, h2]
        exact hs
      · intro a ha
        rw [hq'] at ha
        show a ∉ settledOf (handleLine p l)
        unfold settledOf
        rw [hhl, h2]
        exact hd a (List.mem_cons_of_mem _ ha)
      · intro a ha
        rw [hq'] at ha
        rw [hhr]
        exact hbq a (List.mem_cons_of_mem _ ha)
      · intro a ha
        show a ≤ (handleLine p l).requestId
        rw [hhr]
        refine hbs a ?_
        unfold settledOf at ha ⊢
        rw [hhl, h2] at ha
        exact ha
    · have hsl : settledOf (handleLine p l) = settledOf p ++ [pd.handle] := by
        unfold settledOf
        rw [hhl, h2]
        simp
      refine ⟨?_, ?_, ?_, ?_, ?_⟩
      · rw [hq']
        exact hqnd.2
      · rw [hsl, List.nodup_append]
        exact ⟨hs, List.nodup_singleton _, by simpa using hpdmem⟩
      · intro a ha
        rw [hq'] at ha
        rw [hsl]
        intro hmem
        rcases List.mem_append.mp hmem with hm | hm
        · exact hd a (List.mem_cons_of_mem _ ha) hm
        · rw [List.mem_singleton] at hm
          exact hqnd.1 (hm ▸ ha)
      · intro a ha
        rw [hq'] at ha
        rw [hhr]
        exact hbq a (List.mem_cons_of_mem _ ha)
      · intro a ha
        rw [hsl] at ha
        rw [hhr]
        rcases List.mem_append.mp ha with hm | hm
        · exact hbs a hm
        · rw [List.mem_singleton] at hm
          subst hm
          exact hbq pd.handle (List.mem_cons_self _ _)

/-- The whole line loop preserves the invariant, the request counter and
the other non-stream fields. -/
theorem procInv_handleLines (ls : List (List Char)) (p : ProcModel) (h : ProcInv p) :
    ProcInv (handleLines ls p) ∧ (handleLines ls p).requestId = p.requestId := by
  induction ls generalizing p with
  | nil => exact ⟨h, rfl⟩
  | cons l ls ih =>
    have step := procInv_handleLine p l h
    have hr : (handleLine p l).requestId = p.requestId := rfl
    have := ih (handleLine p l) step
    exact ⟨this.1, by rw [show handleLines (l :: ls) p = handleLines ls (handleLine p l) from rfl, this.2, hr]⟩

/-- With distinct handles, splicing out the entry for `h` leaves no
entry with handle `h`. -/
theorem not_mem_eraseP_handles (queue : List Pending) (h : Nat)
    (hnd : (queue.map (fun x => x.handle)).Nodup) :
    h ∉ (queue.eraseP (fun x => x.handle == h)).map (fun x => x.handle) := by
  induction queue with
  | nil => simp
  | cons a rest ih =>
    rw [List.map_cons, List.nodup_cons] at hnd
    by_cases ha : a.handle = h
    · rw [List.eraseP_cons_of_pos (by simp [ha])]
      rw [← ha]
      exact hnd.1
    · rw [List.eraseP_cons_of_neg (by simp [ha])]
      rw [List.map_cons]
      intro hmem
      rcases List.mem_cons.mp hmem with h1 | h2
      · exact ha h1.symm
      · exact ih hnd.2 h2

/-- With distinct handles, `findIndex`-style lookup by handle finds
exactly the member entry with that handle. -/
theorem find?_handle_eq (queue : List Pending) (q : Pending) (h : Nat)
    (hnd : (queue.map (fun x => x.handle)).Nodup)
    (hq : q ∈ queue) (hh : q.handle = h) :
    queue.find? (fun x => x.handle == h) = some q := by
  induction queue with
  | nil => simp at hq
  | cons a rest ih =>
    rw [List.map_cons, List.nodup_cons] at hnd
    by_cases ha : a.handle = h
    · rw [List.find?_cons_of_pos _ (by simp [ha])]
      rcases List.mem_cons.mp hq with h1 | h2
      · rw [h1]
      · exact absurd (List.mem_map.mpr ⟨q, h2, hh.trans ha.symm⟩) hnd.1
    · rw [List.find?_cons_of_neg _ (by simp [ha])]
      rcases List.mem_cons.mp hq with h1 | h2
      · exact absurd (h1 ▸ hh) ha
      · exact ih hnd.2 h2

/-- Every event-loop turn preserves the correlator invariant, and the
request counter never decreases. -/
theorem procInv_pstep (p : ProcModel) (e : PEvent) (h : ProcInv p) :
    ProcInv (pstep p e) ∧ p.requestId ≤ (pstep p e).requestId := by
  obtain ⟨hq, hs, hd, hbq, hbs⟩ := h
  cases e with
  | stdout data =>
    have hb : ProcInv { p with buffer := (((splitNl (p.buffer ++ data)).getLast?).getD []) } :=
      procInv_of_eq p _ ⟨hq, hs, hd, hbq, hbs⟩ rfl rfl rfl
    have hl := procInv_handleLines ((splitNl (p.buffer ++ data)).dropLast) _ hb
    exact ⟨hl.1, le_of_eq hl.2.symm⟩
  | sendReq t m wok =>
    cases wok with
    | true =>
      have hfresh : p.requestId + 1 ∉ handlesOf p := fun hmem =>
        Nat.not_succ_le_self p.requestId (hbq _ hmem)
      have hfreshs : p.requestId + 1 ∉ settledOf p := fun hmem =>
        Nat.not_succ_le_self p.requestId (hbs _ hmem)
      have hho : handlesOf (pstep p (.sendReq t m true)) =
          handlesOf p ++ [p.requestId + 1] := by
        unfold handlesOf pstep
        simp
      have hso : settledOf (pstep p (.sendReq t m true)) = settledOf p := rfl
      have hro : (pstep p (.sendReq t m true)).requestId = p.requestId + 1 := rfl
      refine ⟨⟨?_, ?_, ?_, ?_, ?_⟩, ?_⟩
      · rw [hho, List.nodup_append]
        exact ⟨hq, List.nodup_singleton _, by simpa using hfresh⟩
      · rw [hso]; exact hs
      · intro a ha
        rw [hho] at ha
        rw [hso]
        rcases List.mem_append.mp ha with hm | hm
        · exact hd a hm
        · rw [List.mem_singleton] at hm
          subst hm
          exact hfreshs
      · intro a ha
        rw [hho] at ha
        rw [hro]
        rcases List.mem_append.mp ha with hm | hm
        · exact Nat.le_succ_of_le (hbq a hm)
        · rw [List.mem_singleton] at hm
          subst hm
          exact le_refl _
      · intro a ha
        rw [hso] at ha
        rw [hro]
        exact Nat.le_succ_of_le (hbs a ha)
      · rw [hro]; exact Nat.le_succ _
    | false =>
      have hfreshq : p.requestId + 1 ∉ handlesOf p := fun hmem =>
        Nat.not_succ_le_self p.requestId (hbq _ hmem)
      have hfreshs : p.requestId + 1 ∉ settledOf p := fun hmem =>
        Nat.not_succ_le_self p.requestId (hbs _ hmem)
      have hho : handlesOf (pstep p (.sendReq t m false)) = handlesOf p := rfl
      have hso : settledOf (pstep p (.sendReq t m false)) =
          settledOf p ++ [p.requestId + 1] := by
        unfold settledOf pstep
        simp
      have hro : (pstep p (.sendReq t m false)).requestId = p.requestId + 1 := rfl
      refine ⟨⟨?_, ?_, ?_, ?_, ?_⟩, ?_⟩
      · rw [hho]; exact hq
      · rw [hso, List.nodup_append]
        exact ⟨hs, List.nodup_singleton _, by simpa using hfreshs⟩
      · intro a ha
        rw [hho] at ha
        rw [hso]
        intro hmem
        rcases List.mem_append.mp hmem with hm | hm
        · exact hd a ha hm
        · rw [List.mem_singleton] at hm
          subst hm
          exact hfreshq ha
      · intro a ha
        rw [hho] at ha
        rw [hro]
        exact Nat.le_succ_of_le (hbq a ha)
      · intro a ha
        rw [hso] at ha
        rw [hro]
        rcases List.mem_append.mp ha with hm | hm
        · exact Nat.le_succ_of_le (hbs a hm)
        · rw [List.mem_singleton] at hm
          subst hm
          exact le_refl _
      · rw [hro]; exact Nat.le_succ _
  | timerFire h' =>
    cases hf : p.messageQueue.find? (fun x => x.handle == h') with
    | none =>
      have hstep : pstep p (.timerFire h') = p := by
        simp only [pstep, hf]
      rw [hstep]
      exact ⟨⟨hq, hs, hd, hbq, hbs⟩, le_refl _⟩
    | some q =>
      have hqm : q ∈ p.messageQueue := List.mem_of_find?_eq_some hf
      have hqh : q.handle = h' := by
        have := List.find?_some hf
        simpa using this
      have hmem : h' ∈ handlesOf p :=
        List.mem_map.mpr ⟨q, hqm, hqh⟩
      have hstep : pstep p (.timerFire h') =
          { p with messageQueue := p.messageQueue.eraseP (fun x => x.handle == h'),
                   log := p.log ++ [(h', .timedOut q.method)] } := by
        simp only [pstep, hf]
      have hho : handlesOf (pstep p (.timerFire h')) =
          (p.messageQueue.eraseP (fun x => x.handle == h')).map (fun x => x.handle) := by
        rw [hstep]
        rfl
      have hso : settledOf (pstep p (.timerFire h')) = settledOf p ++ [h'] := by
        rw [hstep]
        unfold settledOf
        simp
      have hro : (pstep p (.timerFire h')).requestId = p.requestId := by
        rw [hstep]
      have hsub : List.Sublist
          ((p.messageQueue.eraseP (fun x => x.handle == h')).map (fun x => x.handle))
          (handlesOf p) :=
        (List.eraseP_sublist _).map _
      refine ⟨⟨?_, ?_, ?_, ?_, ?_⟩, ?_⟩
      · rw [hho]
        exact hq.sublist hsub
      · rw [hso, List.nodup_append]
        exact ⟨hs, List.nodup_singleton _, by simpa using hd h' hmem⟩
      · intro a ha
        rw [hho] at ha
        rw [hso]
        intro hmem2
        rcases List.mem_append.mp hmem2 with hm | hm
        · exact hd a (hsub.mem ha) hm
        · rw [List.mem_singleton] at hm
          subst hm
          exact not_mem_eraseP_handles p.messageQueue a hq ha
      · intro a ha
        rw [hho] at ha
        rw [hro]
        exact hbq a (hsub.mem ha)
      · intro a ha
        rw [hso] at ha
        rw [hro]
        rcases List.mem_append.mp ha with hm | hm
        · exact hbs a hm
        · rw [List.mem_singleton] at hm
          subst hm
          exact hbq a hmem
      · rw [hro]
  | procExit => exact ⟨⟨hq, hs, hd, hbq, hbs⟩, le_refl _⟩

/-- A fresh process satisfies the correlator invariant. -/
theorem procInv_initProc (pid0 : Nat) (url : String) : ProcInv (initProc pid0 url) := by
  refine ⟨?_, ?_, ?_, ?_, ?_⟩ <;> simp [initProc, handlesOf, settledOf]

/-- Any run of event-loop turns preserves the invariant. -/
theorem procInv_prun (p : ProcModel) (evs : List PEvent) (h : ProcInv p) :
    ProcInv (prun p evs) := by
  induction evs generalizing p with
  | nil => exact h
  | cons e evs ih => exact ih _ (procInv_pstep p e h).1

/-- No recorded settlement for `h` means settle count zero. -/
theorem countSettled_zero_aux (l : List (Nat × SettleKind)) (h : Nat)
    (hns : h ∉ l.map (fun e => e.1)) :
    (l.filter (fun e => e.1 == h)).length = 0 := by
  induction l with
  | nil => rfl
  | cons e es ih =>
    rw [List.map_cons, List.mem_cons] at hns
    push_neg at hns
    rw [List.filter_cons_of_neg (by simp only [beq_iff_eq]; exact fun hh => hns.1 hh.symm)]
    exact ih hns.2

/-- Distinct settled handles bound every settle count by one. -/
theorem countSettled_le_one_aux (l : List (Nat × SettleKind)) (h : Nat)
    (hnd : (l.map (fun e => e.1)).Nodup) :
    (l.filter (fun e => e.1 == h)).length ≤ 1 := by
  induction l with
  | nil => simp
  | cons e es ih =>
    rw [List.map_cons, List.nodup_cons] at hnd
    by_cases he : e.1 = h
    · rw [List.filter_cons_of_pos (by simp [he])]
      have hz : (es.filter (fun x => x.1 == h)).length = 0 :=
        countSettled_zero_aux es h (by rw [← he]; exact hnd.1)
      simp [hz]
    · rw [List.filter_cons_of_neg (by simp [he])]
      exact ih hnd.2

/-- A recorded settlement makes the settle count positive. -/
theorem countSettled_pos_of_mem (p : ProcModel) (h : Nat) (k : SettleKind)
    (hmem : (h, k) ∈ p.log) : 0 < countSettled p h := by
  unfold countSettled
  rw [List.length_pos]
  exact List.ne_nil_of_mem (List.mem_filter.mpr ⟨hmem, by simp⟩)

/-- One stdout line only appends to the settlement log. -/
theorem log_mono_handleLine (p : ProcModel) (l : List Char) :
    ∃ t, (handleLine p l).log = p.log ++ t := by
  have heq : (handleLine p l).log = (lineCore p.messageQueue p.log l).2.1 := rfl
  rcases lineCore_cases p.messageQueue p.log l with ⟨_, h2⟩ | ⟨pd, q', _, _, h2 | ⟨k, h2⟩⟩
  · exact ⟨[], by rw [heq, h2]; simp⟩
  · exact ⟨[], by rw [heq, h2]; simp⟩
  · exact ⟨[(pd.handle, k)], by rw [heq, h2]⟩

/-- The line loop only appends to the settlement log. -/
theorem log_mono_handleLines (ls : List (List Char)) (p : ProcModel) :
    ∃ t, (handleLines ls p).log = p.log ++ t := by
  induction ls generalizing p with
  | nil => exact ⟨[], by simp [handleLines]⟩
  | cons l ls ih =>
    obtain ⟨t1, ht1⟩ := log_mono_handleLine p l
    obtain ⟨t2, ht2⟩ := ih (handleLine p l)
    refine ⟨t1 ++ t2, ?_⟩
    rw [show handleLines (l :: ls) p = handleLines ls (handleLine p l) from rfl,
        ht2, ht1, List.append_assoc]

/-- The settlement log only ever grows. -/
theorem log_mono_pstep (p : ProcModel) (e : PEvent) :
    ∃ t, (pstep p e).log = p.log ++ t := by
  cases e with
  | stdout data =>
    exact log_mono_handleLines ((splitNl (p.buffer ++ data)).dropLast)
      { p with buffer := ((splitNl (p.buffer ++ data)).getLast?).getD [] }
  | sendReq t m wok => cases wok with
    | true => exact ⟨[], by simp [pstep]⟩
    | false => exact ⟨[(p.requestId + 1, .writeFailed)], rfl⟩
  | timerFire h' =>
    cases hf : p.messageQueue.find? (fun x => x.handle == h') with
    | none => exact ⟨[], by simp [pstep, hf]⟩
    | some q => exact ⟨[(h', .timedOut q.method)], by simp [pstep, hf]⟩
  | procExit => exact ⟨[], by simp [pstep]⟩

/-- The settlement log only grows across a whole run. -/
theorem log_mono_prun (p : ProcModel) (evs : List PEvent) :
    ∃ t, (prun p evs).log = p.log ++ t := by
  induction evs generalizing p with
  | nil => exact ⟨[], by simp [prun]⟩
  | cons e evs ih =>
    obtain ⟨t1, ht1⟩ := log_mono_pstep p e
    obtain ⟨t2, ht2⟩ := ih (pstep p e)
    refine ⟨t1 ++ t2, ?_⟩
    rw [show prun p (e :: evs) = prun (pstep p e) evs from rfl, ht2, ht1, List.append_assoc]

/-- The timeout discipline over any invariant-satisfying correlator
state. -/
theorem timeout_core (p : ProcModel) (h : Nat) (hInv : ProcInv p) :
    (∀ t m, (pstep p (.sendReq t m true)).messageQueue =
        p.messageQueue ++ [⟨p.requestId + 1, m, t + requestTimeoutMs⟩]) ∧
    (∀ q ∈ p.messageQueue, q.handle = h →
      (pstep p (.timerFire h)).log = p.log ++ [(h, .timedOut q.method)] ∧
      h ∉ handlesOf (pstep p (.timerFire h)) ∧
      countSettled (pstep p (.timerFire h)) h = 1) ∧
    (∀ k, (h, k) ∈ p.log → pstep p (.timerFire h) = p) := by
  obtain ⟨hq, hs, hd, hbq, hbs⟩ := hInv
  refine ⟨fun t m => rfl, ?_, ?_⟩
  · intro q hq' hh
    have hfind := find?_handle_eq p.messageQueue q h hq hq' hh
    have hstep : pstep p (.timerFire h) =
        { p with messageQueue := p.messageQueue.eraseP (fun x => x.handle == h),
                 log := p.log ++ [(h, .timedOut q.method)] } := by
      simp only [pstep, hfind]
    have hhs : h ∉ settledOf p :=
      hd h (List.mem_map.mpr ⟨q, hq', hh⟩)
    refine ⟨by rw [hstep], ?_, ?_⟩
    · rw [hstep]
      exact not_mem_eraseP_handles p.messageQueue h hq
    · rw [hstep]
      unfold countSettled
      simp only [List.filter_append, List.length_append]
      rw [countSettled_zero_aux p.log h hhs]
      simp
  · intro k hk
    have hhs : h ∈ settledOf p := List.mem_map.mpr ⟨(h, k), hk, rfl⟩
    have hnm : h ∉ handlesOf p := fun hmem => hd h hmem hhs
    have hfind : p.messageQueue.find? (fun x => x.handle == h) = none := by
      rw [List.find?_eq_none]
      intro x hx
      simp only [beq_iff_eq]
      exact fun hxh => hnm (List.mem_map.mpr ⟨x, hx, hxh⟩)
    simp only [pstep, hfind]

/-- **C6.** For every reachable correlator state and every request sent
through it: the send attaches the 30-second deadline
(`requestTimeoutMs = 30000`); if the request is still pending when its
timer fires (it received no settling response), the timer rejects it
with the timeout error and removes it from the pending set, leaving it
settled exactly once; and if it was already settled — by a response, by
a write failure, or by an earlier timeout — the timer changes nothing,
so the timeout path never settles a request a second time. -/
theorem timeout_rejects_exactly_once (p : ProcModel) (h : Nat)
    (hreach : ∃ pid0 url evs, p = prun (initProc pid0 url) evs) :
    (∀ t m, (pstep p (.sendReq t m true)).messageQueue =
        p.messageQueue ++ [⟨p.requestId + 1, m, t + requestTimeoutMs⟩]) ∧
    (∀ q ∈ p.messageQueue, q.handle = h →
      (pstep p (.timerFire h)).log = p.log ++ [(h, .timedOut q.method)] ∧
      h ∉ handlesOf (pstep p (.timerFire h)) ∧
      countSettled (pstep p (.timerFire h)) h = 1) ∧
    (∀ k, (h, k) ∈ p.log → pstep p (.timerFire h) = p) := by
  obtain ⟨pid0, url, evs, rfl⟩ := hreach
  exact timeout_core _ h (procInv_prun _ evs (procInv_initProc pid0 url))

/-- Witness for C6: after one send, the timer fire rejects the pending
request exactly once, and a second fire of the same timer identity is a
no-op. -/
theorem timeout_rejects_exactly_once_witness :
    (pstep (prun (initProc 1 "u") [.sendReq 0 "tools/call" true]) (.timerFire 1)).log =
      [(1, .timedOut "tools/call")] ∧
    countSettled (pstep (prun (initProc 1 "u") [.sendReq 0 "tools/call" true])
      (.timerFire 1)) 1 = 1 ∧
    pstep (pstep (prun (initProc 1 "u") [.sendReq 0 "tools/call" true]) (.timerFire 1))
        (.timerFire 1) =
      pstep (prun (initProc 1 "u") [.sendReq 0 "tools/call" true]) (.timerFire 1) := by
  have h1 := timeout_rejects_exactly_once
    (prun (initProc 1 "u") [.sendReq 0 "tools/call" true]) 1
    ⟨1, "u", [.sendReq 0 "tools/call" true], rfl⟩
  have h2 := h1.2.1 ⟨1, "tools/call", 30000⟩ (List.mem_singleton_self _) rfl
  have h3 := timeout_rejects_exactly_once
    (pstep (prun (initProc 1 "u") [.sendReq 0 "tools/call" true]) (.timerFire 1)) 1
    ⟨1, "u", [.sendReq 0 "tools/call" true, .timerFire 1], rfl⟩
  exact ⟨h2.1, h2.2.2, h3.2.2 (.timedOut "tools/call") (List.mem_singleton_self _)⟩

/-- An entry whose handle differs survives the splice of another
handle's timer. -/
theorem mem_eraseP_of_handle_ne (l : List Pending) (x : Pending) (h' : Nat)
    (hx : x ∈ l) (hne : x.handle ≠ h') :
    x ∈ l.eraseP (fun y => y.handle == h') := by
  induction l with
  | nil => cases hx
  | cons a rest ih =>
    by_cases ha : a.handle = h'
    · rw [List.eraseP_cons_of_pos (by simp [ha])]
      rcases List.mem_cons.mp hx with h1 | h2
      · exact absurd (by rw [h1]; exact ha) hne
      · exact h2
    · rw [List.eraseP_cons_of_neg (by simp [ha])]
      rcases List.mem_cons.mp hx with h1 | h2
      · rw [h1]
        exact List.mem_cons_self _ _
      · exact List.mem_cons_of_mem _ (ih h2)

/-- After its own timer fires, a handle is never pending. -/
theorem timerFire_clears_handle (p : ProcModel) (h : Nat) (hInv : ProcInv p) :
    h ∉ handlesOf (pstep p (.timerFire h)) := by
  cases hf : p.messageQueue.find? (fun x => x.handle == h) with
  | none =>
    have hstep : pstep p (.timerFire h) = p := by simp only [pstep, hf]
    rw [hstep]
    rw [List.find?_eq_none] at hf
    intro habs
    obtain ⟨x, hx, hxh⟩ := List.mem_map.mp habs
    exact hf x hx (by simp [hxh])
  | some q =>
    have hstep : pstep p (.timerFire h) =
        { p with messageQueue := p.messageQueue.eraseP (fun x => x.handle == h),
                 log := p.log ++ [(h, .timedOut q.method)] } := by
      simp only [pstep, hf]
    rw [hstep]
    exact not_mem_eraseP_handles p.messageQueue h hInv.1

/-- Completion tracking of one sent request with handle `h` and method
`m`: either it is still pending and unsettled, or it has been settled
exactly once by its timeout rejection. -/
def TrackedReq (p : ProcModel) (h : Nat) (m : String) : Prop :=
  ProcInv p ∧ h ≤ p.requestId ∧
  (((∃ dl, (⟨h, m, dl⟩ : Pending) ∈ p.messageQueue) ∧ countSettled p h = 0) ∨
   ((h, SettleKind.timedOut m) ∈ p.log ∧ h ∉ handlesOf p ∧ countSettled p h = 1))

/-- Tracking is preserved by every event that is not a stdout chunk. -/
theorem trackedReq_pstep (p : ProcModel) (h : Nat) (m : String) (e : PEvent)
    (ht : TrackedReq p h m) (hne : ∀ d, e ≠ .stdout d) :
    TrackedReq (pstep p e) h m := by
  obtain ⟨hInv, hle, hcase⟩ := ht
  obtain ⟨hq, hs, hd, hbq, hbs⟩ := hInv
  refine ⟨(procInv_pstep p e ⟨hq, hs, hd, hbq, hbs⟩).1,
          le_trans hle (procInv_pstep p e ⟨hq, hs, hd, hbq, hbs⟩).2, ?_⟩
  cases e with
  | stdout data => exact absurd rfl (hne data)
  | sendReq t m' wok =>
    have hfr : p.requestId + 1 ≠ h := fun hh => by omega
    cases wok with
    | true =>
      have hql : (pstep p (.sendReq t m' true)).messageQueue =
          p.messageQueue ++ [⟨p.requestId + 1, m', t + requestTimeoutMs⟩] := rfl
      have hll : (pstep p (.sendReq t m' true)).log = p.log := rfl
      have hcnt : countSettled (pstep p (.sendReq t m' true)) h = countSettled p h := rfl
      rcases hcase with ⟨⟨dl, hdl⟩, hc0⟩ | ⟨hmem, hnh, hc1⟩
      · exact Or.inl ⟨⟨dl, by rw [hql]; exact List.mem_append_left _ hdl⟩,
          by rw [hcnt]; exact hc0⟩
      · refine Or.inr ⟨by rw [hll]; exact hmem, ?_, by rw [hcnt]; exact hc1⟩
        show h ∉ (pstep p (.sendReq t m' true)).messageQueue.map (fun x => x.handle)
        rw [hql]
        intro habs
        rw [List.map_append, List.mem_append] at habs
        rcases habs with hm | hm
        · exact hnh hm
        · rw [List.map_singleton, List.mem_singleton] at hm
          exact hfr hm.symm
    | false =>
      have hql : (pstep p (.sendReq t m' false)).messageQueue = p.messageQueue := rfl
      have hll : (pstep p (.sendReq t m' false)).log =
          p.log ++ [(p.requestId + 1, .writeFailed)] := rfl
      have hcnt : countSettled (pstep p (.sendReq t m' false)) h = countSettled p h := by
        unfold countSettled
        rw [hll, List.filter_append,
            List.filter_cons_of_neg (by simp only [beq_iff_eq]; exact hfr)]
        simp
      rcases hcase with ⟨⟨dl, hdl⟩, hc0⟩ | ⟨hmem, hnh, hc1⟩
      · exact Or.inl ⟨⟨dl, by rw [hql]; exact hdl⟩, by rw [hcnt]; exact hc0⟩
      · refine Or.inr ⟨by rw [hll]; exact List.mem_append_left _ hmem, ?_,
          by rw [hcnt]; exact hc1⟩
        show h ∉ (pstep p (.sendReq t m' false)).messageQueue.map (fun x => x.handle)
        rw [hql]
        exact hnh
  | timerFire h' =>
    by_cases hh' : h' = h
    · subst hh'
      rcases hcase with ⟨⟨dl, hdl⟩, hc0⟩ | ⟨hmem, hnh, hc1⟩
      · have hfind := find?_handle_eq p.messageQueue ⟨h', m, dl⟩ h' hq hdl rfl
        have hstep : pstep p (.timerFire h') =
            { p with messageQueue := p.messageQueue.eraseP (fun x => x.handle == h'),
                     log := p.log ++ [(h', .timedOut m)] } := by
          simp only [pstep, hfind]
        refine Or.inr ⟨?_, ?_, ?_⟩
        · rw [hstep]
          exact List.mem_append_right _ (List.mem_singleton_self _)
        · show h' ∉ handlesOf (pstep p (.timerFire h'))
          rw [hstep]
          exact not_mem_eraseP_handles p.messageQueue h' hq
        · unfold countSettled at hc0 ⊢
          rw [hstep]
          simp only [List.filter_append, List.length_append, hc0]
          simp
      · have hfind : p.messageQueue.find? (fun x => x.handle == h') = none := by
          rw [List.find?_eq_none]
          intro x hx
          simp only [beq_iff_eq]
          exact fun hxh => hnh (List.mem_map.mpr ⟨x, hx, hxh⟩)
        have hstep : pstep p (.timerFire h') = p := by simp only [pstep, hfind]
        rw [hstep]
        exact Or.inr ⟨hmem, hnh, hc1⟩
    · cases hf : p.messageQueue.find? (fun x => x.handle == h') with
      | none =>
        have hstep : pstep p (.timerFire h') = p := by simp only [pstep, hf]
        rw [hstep]
        exact hcase
      | some qf =>
        have hstep : pstep p (.timerFire h') =
            { p with messageQueue := p.messageQueue.eraseP (fun x => x.handle == h'),
                     log := p.log ++ [(h', .timedOut qf.method)] } := by
          simp only [pstep, hf]
        have hcnt : countSettled (pstep p (.timerFire h')) h = countSettled p h := by
          unfold countSettled
          rw [hstep]
          show (List.filter _ (p.log ++ [(h', SettleKind.timedOut qf.method)])).length = _
          rw [List.filter_append,
              List.filter_cons_of_neg (by simp only [beq_iff_eq]; exact hh')]
          simp
        rcases hcase with ⟨⟨dl, hdl⟩, hc0⟩ | ⟨hmem, hnh, hc1⟩
        · refine Or.inl ⟨⟨dl, ?_⟩, by rw [hcnt]; exact hc0⟩
          rw [hstep]
          exact mem_eraseP_of_handle_ne p.messageQueue _ h' hdl (fun hc => hh' hc.symm)
        · refine Or.inr ⟨by rw [hstep]; exact List.mem_append_left _ hmem, ?_,
            by rw [hcnt]; exact hc1⟩
          show h ∉ handlesOf (pstep p (.timerFire h'))
          rw [hstep]
          intro habs
          have hsub : List.Sublist
              ((p.messageQueue.eraseP (fun x => x.handle == h')).map (fun x => x.handle))
              (p.messageQueue.map (fun x => x.handle)) :=
            (List.eraseP_sublist _).map _
          exact hnh (hsub.mem habs)
  | procExit => exact hcase

/-- Tracking is preserved over any stdout-free run. -/
theorem trackedReq_prun (p : ProcModel) (h : Nat) (m : String) (evs : List PEvent)
    (ht : TrackedReq p h m) (hns : ∀ d, PEvent.stdout d ∉ evs) :
    TrackedReq (prun p evs) h m := by
  induction evs generalizing p with
  | nil => exact ht
  | cons e evs ih =>
    refine ih (pstep p e)
      (trackedReq_pstep p h m e ht ?_)
      (fun d hd => hns d (List.mem_cons_of_mem _ hd))
    intro d heq
    exact hns d (by rw [heq]; exact List.mem_cons_self _ _)

/-- The firing of the tracked request's own timer settles it (if it had
not been settled already): afterwards its timeout rejection is on
record. -/
theorem trackedReq_timerFire (p : ProcModel) (h : Nat) (m : String)
    (ht : TrackedReq p h m) :
    TrackedReq (pstep p (.timerFire h)) h m ∧
    (h, SettleKind.timedOut m) ∈ (pstep p (.timerFire h)).log := by
  have ht' := trackedReq_pstep p h m (.timerFire h) ht (fun d heq => PEvent.noConfusion heq)
  refine ⟨ht', ?_⟩
  have hclear := timerFire_clears_handle p h ht.1
  rcases ht'.2.2 with ⟨⟨dl, hdl⟩, _⟩ | ⟨hmem, _, _⟩
  · exact absurd (List.mem_map.mpr ⟨⟨h, m, dl⟩, hdl, rfl⟩) hclear
  · exact hmem

/-- **C7.** For every request still pending at the moment the process
exits (e.g. a `callTool` in flight when the process is killed): provided
its 30-second timer eventually fires — which Node guarantees, since the
exit handler cancels no timers and settles nothing — the request's
completion handle settles, rejected by the timeout, rather than hanging
forever; it is settled exactly once; and, on any run whatsoever, no
request is ever settled more than once. -/
theorem outstanding_settles_after_exit (pid0 : Nat) (url : String)
    (evs1 evs2 : List PEvent) (q : Pending)
    (hq : q ∈ (prun (initProc pid0 url) evs1).messageQueue)
    (hnostdout : ∀ d, PEvent.stdout d ∉ evs2)
    (htimer : PEvent.timerFire q.handle ∈ evs2) :
    (q.handle, SettleKind.timedOut q.method) ∈
      (prun (initProc pid0 url) (evs1 ++ PEvent.procExit :: evs2)).log ∧
    countSettled (prun (initProc pid0 url) (evs1 ++ PEvent.procExit :: evs2)) q.handle = 1 ∧
    (∀ (evs : List PEvent) (h' : Nat),
      countSettled (prun (initProc pid0 url) evs) h' ≤ 1) := by
  have hInv1 := procInv_prun _ evs1 (procInv_initProc pid0 url)
  have hmemh : q.handle ∈ handlesOf (prun (initProc pid0 url) evs1) :=
    List.mem_map.mpr ⟨q, hq, rfl⟩
  have hcnt0 : countSettled (prun (initProc pid0 url) evs1) q.handle = 0 :=
    countSettled_zero_aux _ _ (hInv1.2.2.1 _ hmemh)
  have ht1 : TrackedReq (prun (initProc pid0 url) evs1) q.handle q.method :=
    ⟨hInv1, hInv1.2.2.2.1 _ hmemh, Or.inl ⟨⟨q.deadline, hq⟩, hcnt0⟩⟩
  obtain ⟨a, b, rfl⟩ := List.append_of_mem htimer
  have hnsa : ∀ d, PEvent.stdout d ∉ a :=
    fun d hd => hnostdout d (List.mem_append_left _ hd)
  have hnsb : ∀ d, PEvent.stdout d ∉ b :=
    fun d hd => hnostdout d (List.mem_append_right _ (List.mem_cons_of_mem _ hd))
  have hrun : prun (initProc pid0 url)
        (evs1 ++ PEvent.procExit :: (a ++ PEvent.timerFire q.handle :: b)) =
      prun (pstep (prun (prun (initProc pid0 url) evs1) a) (PEvent.timerFire q.handle)) b := by
    unfold prun
    rw [List.foldl_append, List.foldl_cons, List.foldl_append, List.foldl_cons]
    rfl
  have ht2 := trackedReq_prun _ _ _ a ht1 hnsa
  have ht3 := trackedReq_timerFire _ _ _ ht2
  have ht4 := trackedReq_prun _ _ _ b ht3.1 hnsb
  obtain ⟨tl, htl⟩ :=
    log_mono_prun (pstep (prun (prun (initProc pid0 url) evs1) a) (PEvent.timerFire q.handle)) b
  have hmem : (q.handle, SettleKind.timedOut q.method) ∈
      (prun (pstep (prun (prun (initProc pid0 url) evs1) a)
        (PEvent.timerFire q.handle)) b).log := by
    rw [htl]
    exact List.mem_append_left _ ht3.2
  have hcount : countSettled (prun (pstep (prun (prun (initProc pid0 url) evs1) a)
      (PEvent.timerFire q.handle)) b) q.handle = 1 := by
    rcases ht4.2.2 with ⟨_, hc0⟩ | ⟨_, _, hc1⟩
    · have := countSettled_pos_of_mem _ _ _ hmem
      omega
    · exact hc1
  refine ⟨by rw [hrun]; exact hmem, by rw [hrun]; exact hcount, ?_⟩
  intro evs h'
  have hInv := procInv_prun _ evs (procInv_initProc pid0 url)
  exact countSettled_le_one_aux _ _ hInv.2.1

/-- Witness for C7: a request sent, then the process exits, then its
timer fires — the request is rejected with the timeout exactly once. -/
theorem outstanding_settles_after_exit_witness :
    (1, SettleKind.timedOut "tools/call") ∈
      (prun (initProc 1 "u")
        ([PEvent.sendReq 0 "tools/call" true] ++
          PEvent.procExit :: [PEvent.timerFire 1])).log ∧
    countSettled (prun (initProc 1 "u")
        ([PEvent.sendReq 0 "tools/call" true] ++
          PEvent.procExit :: [PEvent.timerFire 1])) 1 = 1 := by
  have h := outstanding_settles_after_exit 1 "u" [.sendReq 0 "tools/call" true]
    [.timerFire 1] ⟨1, "tools/call", 30000⟩ (List.mem_singleton_self _)
    (fun d hd => by simp at hd) (List.mem_singleton_self _)
  exact ⟨h.1, h.2.1⟩
